import Mathlib

/-!
Shallow embedding of the DryPerspective Path-Tracer core (Vector3D.h, Ray.h,
Hittable.h, Sphere.cpp, HittableList.cpp, Metal.h, Dielectric.cpp) over real
arithmetic.  Doubles are modelled as real numbers; the `t_max = +infinity`
argument of the colour integrator is modelled with `EReal`; random draws are
passed in as explicit parameters.  Out-parameter style C++ functions
(`isHit(ray, t_min, t_max, HitRecord&) -> bool`) become functions returning
`Bool x HitRecord`.
-/

set_option maxHeartbeats 1000000

noncomputable section

namespace PathTracer

/-- Three-component real vector, from `Vector3D.h` (members `m_X, m_Y, m_Z`). -/
structure Vec3 where
  x : ℝ
  y : ℝ
  z : ℝ

namespace Vec3

/-- Unary negation, `Vector3D::operator-()`. -/
def neg (v : Vec3) : Vec3 := Vec3.mk (-v.x) (-v.y) (-v.z)

instance : Neg Vec3 := Neg.mk Vec3.neg

/-- Componentwise addition, `Vector3D::operator+`. -/
def add (v w : Vec3) : Vec3 := Vec3.mk (v.x + w.x) (v.y + w.y) (v.z + w.z)

instance : Add Vec3 := Add.mk Vec3.add

/-- Componentwise subtraction, the binary `Vector3D::operator-`. -/
def sub (v w : Vec3) : Vec3 := Vec3.mk (v.x - w.x) (v.y - w.y) (v.z - w.z)

instance : Sub Vec3 := Sub.mk Vec3.sub

/-- Scaling by a scalar, `Vector3D::scaledBy(inScalar)`. -/
def scaledBy (v : Vec3) (inScalar : ℝ) : Vec3 :=
  Vec3.mk (v.x * inScalar) (v.y * inScalar) (v.z * inScalar)

/-- Dot product, `Vector3D::innerProduct`. -/
def innerProduct (v w : Vec3) : ℝ := v.x * w.x + v.y * w.y + v.z * w.z

/-- Squared length, `Vector3D::lengthSquared`. -/
def lengthSquared (v : Vec3) : ℝ := v.x * v.x + v.y * v.y + v.z * v.z

/-- Euclidean length, `Vector3D::length`, the square root of `lengthSquared`. -/
def length (v : Vec3) : ℝ := Real.sqrt v.lengthSquared

/-- Machine epsilon, `std::numeric_limits<double>::epsilon()`, the guard used by `getUnitVector`
and `isNearZero` (2^-52 for IEEE doubles). -/
def machineEpsilon : ℝ := 1 / 2 ^ 52

/-- Normalisation, `Vector3D::getUnitVector`: returns the zero vector when the length is at
most machine epsilon, else the vector scaled by the reciprocal length. -/
def getUnitVector (v : Vec3) : Vec3 :=
  if v.length ≤ machineEpsilon then Vec3.mk 0 0 0
  else v.scaledBy (1 / v.length)

/-- Element-wise product, `Vec3D::scaledByVector` / `dp::scaledByVector`,
transforming `(a,b,c)` and `(x,y,z)` into `(ax,by,cz)`. -/
def scaledByVector (v w : Vec3) : Vec3 :=
  Vec3.mk (v.x * w.x) (v.y * w.y) (v.z * w.z)

/-- Mirror reflection, `Vector3D::smoothReflect(inRay, inNormal)`, computing `inRay - inNormal.scaledBy(2 * inRay.innerProduct(inNormal))`. -/
def smoothReflect (inRay inNormal : Vec3) : Vec3 :=
  inRay - inNormal.scaledBy (2 * inRay.innerProduct inNormal)

/-- Snell refraction, `Vector3D::refract(inR, inNormal, etaOverEtaPrime)`. -/
def refract (inR inNormal : Vec3) (etaOverEtaPrime : ℝ) : Vec3 :=
  let unitVectorR := inR.getUnitVector
  let cosTheta := min (-(unitVectorR.innerProduct inNormal)) 1
  let rPrimePerp := (unitVectorR + inNormal.scaledBy cosTheta).scaledBy etaOverEtaPrime
  let rPrimeParallel := inNormal.scaledBy (-Real.sqrt |1 - rPrimePerp.lengthSquared|)
  rPrimeParallel + rPrimePerp

end Vec3

/-- A ray from `Ray.h`: origin plus direction. -/
structure Ray where
  origin : Vec3
  direction : Vec3

/-- Position along a ray, `Ray::at(inDistance)`, equal to `origin + direction.scaledBy(inDistance)`. -/
def Ray.at (r : Ray) (inDistance : ℝ) : Vec3 :=
  r.origin + r.direction.scaledBy inDistance

/-- Collision data, the `HitRecord` of `Hittable.h`, with the material pointer abstracted by a
type parameter (materials are compared only by dispatching on them). -/
structure HitRecord (μ : Type) where
  m_point : Vec3
  m_normal : Vec3
  m_materialPtr : μ
  m_interval : ℝ
  m_frontFace : Bool

instance {μ : Type} [Inhabited μ] : Inhabited (HitRecord μ) :=
  Inhabited.mk (HitRecord.mk (Vec3.mk 0 0 0) (Vec3.mk 0 0 0) default 0 false)

/-- Normal orientation, `HitRecord::setNormalDirection`: set `m_frontFace` to whether the ray
direction opposes the outward normal, and store the normal flipped so that it
always opposes the incoming ray. -/
def HitRecord.setNormalDirection {μ : Type} (inRec : HitRecord μ) (inRay : Ray)
    (outwardNormal : Vec3) : HitRecord μ :=
  let frontFace : Bool := if inRay.direction.innerProduct outwardNormal < 0 then true else false
  { inRec with
    m_frontFace := frontFace
    m_normal := if frontFace then outwardNormal else -outwardNormal }

/-- Sphere data from `Sphere.h`: center, radius, material. -/
structure Sphere (μ : Type) where
  m_center : Vec3
  m_radius : ℝ
  m_material : μ

namespace Sphere

/-- Quadratic half-coefficient `h = (origin - center) . direction` of `Sphere::isHit`. -/
def hitH {μ : Type} (s : Sphere μ) (inRay : Ray) : ℝ :=
  (inRay.origin - s.m_center).innerProduct inRay.direction

/-- Constant coefficient `c = |origin - center|^2 - radius^2` of `Sphere::isHit`. -/
def hitC {μ : Type} (s : Sphere μ) (inRay : Ray) : ℝ :=
  (inRay.origin - s.m_center).lengthSquared - s.m_radius * s.m_radius

/-- Discriminant `h*h - a*c` of `Sphere::isHit`. -/
def disc {μ : Type} (s : Sphere μ) (inRay : Ray) : ℝ :=
  s.hitH inRay * s.hitH inRay - inRay.direction.lengthSquared * s.hitC inRay

/-- The smaller quadratic solution `(-h - sqrt(disc)) / a` tried first by `Sphere::isHit`. -/
def rootOne {μ : Type} (s : Sphere μ) (inRay : Ray) : ℝ :=
  (-s.hitH inRay - Real.sqrt (s.disc inRay)) / inRay.direction.lengthSquared

/-- The larger quadratic solution `(-h + sqrt(disc)) / a` tried second by `Sphere::isHit`. -/
def rootTwo {μ : Type} (s : Sphere μ) (inRay : Ray) : ℝ :=
  (-s.hitH inRay + Real.sqrt (s.disc inRay)) / inRay.direction.lengthSquared

/-- The success path of `Sphere::isHit`: populate `m_interval`, `m_point`, the
normal via `setNormalDirection` on the outward normal `(point - center)/radius`,
and `m_materialPtr`. -/
def writeHit {μ : Type} (s : Sphere μ) (inRay : Ray) (solution : ℝ)
    (inRec : HitRecord μ) : HitRecord μ :=
  let point := inRay.at solution
  let outwardNormal := (point - s.m_center).scaledBy (1 / s.m_radius)
  { HitRecord.setNormalDirection
      { inRec with m_interval := solution, m_point := point } inRay outwardNormal with
    m_materialPtr := s.m_material }

/-- Ray-sphere intersection, `Sphere::isHit` from `Sphere.cpp`: solve the quadratic; reject when the
discriminant is negative; otherwise take the smaller root, falling back to the
larger root when the smaller one fails `!(solution < t_min || t_max < solution)`;
on success write the hit record. -/
def isHit {μ : Type} (s : Sphere μ) (inRay : Ray) (t_min t_max : ℝ)
    (inRec : HitRecord μ) : Bool × HitRecord μ :=
  if s.disc inRay < 0 then (false, inRec)
  else
    let solution := s.rootOne inRay
    if solution < t_min ∨ t_max < solution then
      let solution := s.rootTwo inRay
      if solution < t_min ∨ t_max < solution then (false, inRec)
      else (true, s.writeHit inRay solution inRec)
    else (true, s.writeHit inRay solution inRec)

/-- The candidate intersection parameters of a sphere along a ray: the two
quadratic solutions, available only when the discriminant is nonnegative. -/
def isCandidate {μ : Type} (s : Sphere μ) (inRay : Ray) (t : ℝ) : Prop :=
  0 ≤ s.disc inRay ∧ (t = s.rootOne inRay ∨ t = s.rootTwo inRay)

end Sphere

/-- A `Hittable` (from `Hittable.h`) as used by `HittableList`: its `isHit`
virtual function, in out-parameter-passing form. -/
def HittableT (μ : Type) : Type :=
  Ray → ℝ → ℝ → HitRecord μ → Bool × HitRecord μ

/-- The loop body of `HittableList::isHit`: iterate over the object list,
passing the shared `tempRecord` into each member; on a member hit, mark
`isHitAnything`, shrink `closestSoFar` to the member's `m_interval`, and copy
the temp record into the caller's record. -/
def hitLoop {μ : Type} (inRay : Ray) (t_min : ℝ) :
    List (HittableT μ) → HitRecord μ → Bool → ℝ → HitRecord μ → Bool × HitRecord μ
  | [], _, isHitAnything, _, inRec => (isHitAnything, inRec)
  | hittable :: rest, tempRecord, isHitAnything, closestSoFar, inRec =>
    let res := hittable inRay t_min closestSoFar tempRecord
    if res.1 then
      hitLoop inRay t_min rest res.2 true res.2.m_interval res.2
    else
      hitLoop inRay t_min rest res.2 isHitAnything closestSoFar inRec

/-- Scene traversal, `HittableList::isHit` from `HittableList.cpp`: start from a fresh temp
record, `isHitAnything = false` and `closestSoFar = t_max`, then run the loop. -/
def HittableList.isHit {μ : Type} [Inhabited μ] (m_objectList : List (HittableT μ))
    (inRay : Ray) (t_min t_max : ℝ) (inRec : HitRecord μ) : Bool × HitRecord μ :=
  hitLoop inRay t_min m_objectList default false t_max inRec

/-- Metal material data from `Metal.h`. -/
structure Metal where
  m_albedoColour : Vec3
  m_fuzz : ℝ

/-- The `Metal` constructor, `Metal.h` line 20: `m_fuzz((inFuzz<1)?inFuzz:1)`. -/
def Metal.create (inColour : Vec3) (inFuzz : ℝ) : Metal :=
  Metal.mk inColour (if inFuzz < 1 then inFuzz else 1)

/-- Schlick approximation, `Dielectric::calcReflection`:
`R0 = ((1-n)/(1+n))^2; R0 + (1-R0)*(1-cosTheta)^5`. -/
def Dielectric.calcReflection (inCosTheta inRefractiveIndex : ℝ) : ℝ :=
  let R_0 := (1 - inRefractiveIndex) / (1 + inRefractiveIndex)
  R_0 * R_0 + (1 - R_0 * R_0) * (1 - inCosTheta) ^ 5

/-- Dielectric scattering, `Dielectric::isScattered` from `Dielectric.cpp`.  The single uniform [0,1]
draw `randNumber()` is passed in as the explicit parameter `u`; the returned
triple is `(return value, inColourAtten, scatteredRay)`.  The local named
`refractionRate` here is the source's `refractionRatio`. -/
def Dielectric.isScattered {μ : Type} (m_refractiveIndex : ℝ) (u : ℝ)
    (inRay : Ray) (inRecord : HitRecord μ) : Bool × Vec3 × Ray :=
  let inColourAtten := Vec3.mk 1 1 1
  let refractionRate := if inRecord.m_frontFace then 1 / m_refractiveIndex else m_refractiveIndex
  let cosTheta := min (inRecord.m_normal.innerProduct (-inRay.direction)) 1
  let sinTheta := Real.sqrt (1 - cosTheta * cosTheta)
  let refractionForbidden := refractionRate * sinTheta > 1
  let reflectBecauseFresnel := Dielectric.calcReflection cosTheta m_refractiveIndex > u
  let outwardsDirection :=
    if refractionForbidden ∨ reflectBecauseFresnel then
      Vec3.smoothReflect inRay.direction.getUnitVector inRecord.m_normal
    else
      Vec3.refract inRay.direction inRecord.m_normal refractionRate
  (true, inColourAtten, Ray.mk inRecord.m_point outwardsDirection)

/-- Clamping, `std::clamp(v, lo, hi)`, as used in `writeColour` (`Metal.h` line 112). -/
def clampD (v lo hi : ℝ) : ℝ :=
  if v < lo then lo else if hi < v then hi else v

/-- Integer conversion, `static_cast<int>` on a double: truncation toward zero. -/
def castToInt (x : ℝ) : ℤ :=
  if 0 ≤ x then Int.floor x else Int.ceil x

/-- Pixel output, `writeColour` from `Metal.h` lines 101-113: divide each channel by the
sample count, gamma-correct with a square root, clamp to [0, 0.999], scale by
256 and truncate to an integer.  The three integers written to the stream are
returned as a list. -/
def writeColour (outColour : Vec3) (samplesPerPixel : ℤ) : List ℤ :=
  let scale : ℝ := 1 / (samplesPerPixel : ℝ)
  let r := Real.sqrt (scale * outColour.x)
  let g := Real.sqrt (scale * outColour.y)
  let b := Real.sqrt (scale * outColour.z)
  [castToInt (256 * clampD r 0 0.999),
   castToInt (256 * clampD g 0 0.999),
   castToInt (256 * clampD b 0 0.999)]

/-- The constant `constexpr double infinity = std::numeric_limits<double>::infinity()`,
modelled as the top element of the extended reals. -/
def doubleInfinity : EReal := ⊤

/-- The scene as seen by `calcColour`: the `Hittable::isHit` virtual call on
the scene object (with an extended-real upper bound so that the `infinity`
argument is representable) and the `Material::isScattered` virtual call
reached through the hit record's material pointer.  `isScattered`'s
out-parameters `(inColourAtten, scatteredRay)` appear in the returned triple. -/
structure Scene (μ : Type) where
  isHit : Ray → ℝ → EReal → HitRecord μ → Bool × HitRecord μ
  scatter : μ → Ray → HitRecord μ → Bool × Vec3 × Ray

/-- Colour integration, `calcColour` from `Metal.h` lines 121-147: black at exhausted depth; on a
scene hit, scatter and recurse with the attenuation applied element-wise (or
black when the material absorbs); on a miss, the white-to-sky-blue vertical
gradient. -/
def calcColour {μ : Type} [Inhabited μ] (S : Scene μ) (inRay : Ray) (inDepth : ℤ) : Vec3 :=
  if _hdepth : inDepth ≤ 0 then Vec3.mk 0 0 0
  else
    let hitRes := S.isHit inRay 0.001 doubleInfinity default
    if hitRes.1 then
      let scatterRes := S.scatter hitRes.2.m_materialPtr inRay hitRes.2
      if scatterRes.1 then
        Vec3.scaledByVector (calcColour S scatterRes.2.2 (inDepth - 1)) scatterRes.2.1
      else Vec3.mk 0 0 0
    else
      let unitDirection := inRay.direction.getUnitVector
      let backgroundT := 0.5 * (unitDirection.y + 1)
      (Vec3.mk 1 1 1).scaledBy (1 - backgroundT) + (Vec3.mk 0.5 0.7 1).scaledBy backgroundT
termination_by inDepth.toNat
decreasing_by omega

/-- A scene whose `isHit` always reports a miss (used to exercise the
depth-exhausted and background branches of `calcColour` concretely). -/
def missScene : Scene Unit :=
  Scene.mk (fun _ _ _ r => (false, r))
    (fun _ _ _ => (false, Vec3.mk 0 0 0, Ray.mk (Vec3.mk 0 0 0) (Vec3.mk 0 0 0)))

/-- A scene that always reports a hit whose material absorbs the ray. -/
def absorbScene : Scene Unit :=
  Scene.mk (fun _ _ _ r => (true, r))
    (fun _ _ _ => (false, Vec3.mk 0 0 0, Ray.mk (Vec3.mk 0 0 0) (Vec3.mk 0 0 0)))

/-- A scene that always reports a hit whose material scatters with a fixed
attenuation and a fixed scattered ray. -/
def bounceScene : Scene Unit :=
  Scene.mk (fun _ _ _ r => (true, r))
    (fun _ _ _ => (true, Vec3.mk 0.5 0.25 1, Ray.mk (Vec3.mk 0 0 0) (Vec3.mk 0 1 0)))

/-- A concrete unit sphere at the origin carrying material id 0. -/
def sphereW : Sphere ℕ := Sphere.mk (Vec3.mk 0 0 0) 1 0

/-- A second sphere with the same geometry as `sphereW` but material id 1. -/
def sphereW2 : Sphere ℕ := Sphere.mk (Vec3.mk 0 0 0) 1 1

/-- A concrete ray from `(0,0,-2)` along `+z`; it meets the unit sphere at the
origin at parameters 1 and 3. -/
def rayW : Ray := Ray.mk (Vec3.mk 0 0 (-2)) (Vec3.mk 0 0 1)

/-- A concrete ray out of the origin with the non-unit direction `(0,0,2)`. -/
def rayW2 : Ray := Ray.mk (Vec3.mk 0 0 0) (Vec3.mk 0 0 2)

/-- A concrete ray from `(0,0,-2)` along `+y`, missing the unit sphere at the
origin. -/
def rayW3 : Ray := Ray.mk (Vec3.mk 0 0 (-2)) (Vec3.mk 0 1 0)

/-- A default hit record over natural-number material ids. -/
def recW : HitRecord ℕ := default

/-- A concrete back-face hit record (normal `(0,1,0)`, `m_frontFace = false`)
used to exercise total internal reflection in the dielectric. -/
def recC6 : HitRecord Unit := HitRecord.mk (Vec3.mk 0 0 0) (Vec3.mk 0 1 0) () 0 false

/-- A concrete ray along `+x`, grazing the normal of `recC6`. -/
def rayC6 : Ray := Ray.mk (Vec3.mk 0 0 0) (Vec3.mk 1 0 0)

theorem Vec3.neg_def (v : Vec3) : -v = Vec3.mk (-v.x) (-v.y) (-v.z) := rfl

theorem Vec3.add_def (v w : Vec3) :
    v + w = Vec3.mk (v.x + w.x) (v.y + w.y) (v.z + w.z) := rfl

theorem Vec3.sub_def (v w : Vec3) :
    v - w = Vec3.mk (v.x - w.x) (v.y - w.y) (v.z - w.z) := rfl

theorem Vec3.innerProduct_comm (v w : Vec3) :
    v.innerProduct w = w.innerProduct v := by
  unfold Vec3.innerProduct; ring

theorem Vec3.sub_innerProduct (v w u : Vec3) :
    (v - w).innerProduct u = v.innerProduct u - w.innerProduct u := by
  rw [Vec3.sub_def]; unfold Vec3.innerProduct; ring

theorem Vec3.scaledBy_innerProduct (v : Vec3) (s : ℝ) (w : Vec3) :
    (v.scaledBy s).innerProduct w = s * v.innerProduct w := by
  unfold Vec3.scaledBy Vec3.innerProduct; ring

theorem Vec3.neg_innerProduct (v w : Vec3) :
    (-v).innerProduct w = -(v.innerProduct w) := by
  rw [Vec3.neg_def]; unfold Vec3.innerProduct; ring

theorem Vec3.innerProduct_self (v : Vec3) :
    v.innerProduct v = v.lengthSquared := rfl

/-- C4: after `setNormalDirection` populates a hit record, the stored normal
has nonpositive dot product with the ray direction, and `m_frontFace` is true
exactly when the ray direction's dot product with the outward normal is
negative. -/
theorem setNormalDirection_invariant {μ : Type} (inRec : HitRecord μ) (inRay : Ray)
    (outwardNormal : Vec3) :
    ((inRec.setNormalDirection inRay outwardNormal).m_normal.innerProduct
        inRay.direction ≤ 0) ∧
    ((inRec.setNormalDirection inRay outwardNormal).m_frontFace = true ↔
      inRay.direction.innerProduct outwardNormal < 0) := by
  unfold HitRecord.setNormalDirection
  by_cases h : inRay.direction.innerProduct outwardNormal < 0
  · simp only [if_pos h, if_true]
    constructor
    · rw [Vec3.innerProduct_comm]; linarith
    · simp [h]
  · simp only [if_neg h, Bool.false_eq_true, if_false]
    rw [not_lt] at h
    constructor
    · rw [Vec3.neg_innerProduct, Vec3.innerProduct_comm]; linarith
    · simp [not_lt.mpr h]

/-- C7 counterexample: the `Metal` constructor stores a negative fuzz argument
unchanged, so the stored fuzz is not always inside [0,1]. -/
theorem metal_fuzz_counterexample :
    (Metal.create (Vec3.mk 0 0 0) (-1)).m_fuzz < 0 := by
  norm_num [Metal.create]

/-- C7 (amended): the `Metal` constructor clamps the fuzz argument from above
to 1 but not from below, so the stored fuzz is at most 1 in general and lies
in [0,1] exactly when the argument is nonnegative. -/
theorem metal_fuzz_clamped (inColour : Vec3) (inFuzz : ℝ) :
    (Metal.create inColour inFuzz).m_fuzz ≤ 1 ∧
    (0 ≤ inFuzz →
      0 ≤ (Metal.create inColour inFuzz).m_fuzz ∧
      (Metal.create inColour inFuzz).m_fuzz ≤ 1) := by
  unfold Metal.create
  by_cases h : inFuzz < 1
  · simp only [if_pos h]
    exact And.intro h.le (fun h0 => And.intro h0 h.le)
  · simp only [if_neg h]
    exact And.intro le_rfl (fun _ => And.intro zero_le_one le_rfl)

theorem metal_fuzz_clamped_witness :
    (0:ℝ) ≤ 1/2 ∧ 0 ≤ (Metal.create (Vec3.mk 0 0 0) (1/2)).m_fuzz ∧
      (Metal.create (Vec3.mk 0 0 0) (1/2)).m_fuzz ≤ 1 :=
  And.intro (by norm_num)
    ((metal_fuzz_clamped (Vec3.mk 0 0 0) (1/2)).2 (by norm_num))

/-- C8: for unit vectors `d` and `n`, the smooth reflection
`d - 2*dot(d,n)*n` satisfies `dot(reflect, n) = -dot(d, n)`. -/
theorem smoothReflect_angle (d n : Vec3) (hd : d.innerProduct d = 1)
    (hn : n.innerProduct n = 1) :
    (Vec3.smoothReflect d n).innerProduct n = -(d.innerProduct n) := by
  unfold Vec3.smoothReflect
  rw [Vec3.sub_innerProduct, Vec3.scaledBy_innerProduct, hn]
  ring

theorem smoothReflect_angle_witness :
    (Vec3.mk 1 0 0).innerProduct (Vec3.mk 1 0 0) = 1 ∧
    (Vec3.mk 0 0 1).innerProduct (Vec3.mk 0 0 1) = 1 ∧
    (Vec3.smoothReflect (Vec3.mk 1 0 0) (Vec3.mk 0 0 1)).innerProduct (Vec3.mk 0 0 1) =
      -((Vec3.mk 1 0 0).innerProduct (Vec3.mk 0 0 1)) :=
  And.intro (by norm_num [Vec3.innerProduct])
    (And.intro (by norm_num [Vec3.innerProduct])
      (smoothReflect_angle (Vec3.mk 1 0 0) (Vec3.mk 0 0 1)
        (by norm_num [Vec3.innerProduct]) (by norm_num [Vec3.innerProduct])))

theorem clampD_bounds (v : ℝ) : 0 ≤ clampD v 0 0.999 ∧ clampD v 0 0.999 ≤ 0.999 := by
  unfold clampD
  split_ifs with h1 h2
  · norm_num
  · norm_num
  · exact And.intro (not_lt.mp h1) (not_lt.mp h2)

/-- C5: `writeColour` emits exactly three integers, each the integer part of
256 times the square root of the channel averaged over the samples, clamped to
[0, 0.999]; each emitted integer lies in [0, 255]. -/
theorem writeColour_contract (outColour : Vec3) (samplesPerPixel : ℤ)
    (hs : 0 < samplesPerPixel) :
    writeColour outColour samplesPerPixel =
      [Int.floor (256 * clampD (Real.sqrt (outColour.x / (samplesPerPixel : ℝ))) 0 0.999),
       Int.floor (256 * clampD (Real.sqrt (outColour.y / (samplesPerPixel : ℝ))) 0 0.999),
       Int.floor (256 * clampD (Real.sqrt (outColour.z / (samplesPerPixel : ℝ))) 0 0.999)] ∧
    ∀ e ∈ writeColour outColour samplesPerPixel, 0 ≤ e ∧ e ≤ 255 := by
  have key : ∀ x : ℝ,
      castToInt (256 * clampD x 0 0.999) = Int.floor (256 * clampD x 0 0.999) ∧
      0 ≤ Int.floor (256 * clampD x 0 0.999) ∧
      Int.floor (256 * clampD x 0 0.999) ≤ 255 := by
    intro x
    obtain ⟨h0, h1⟩ := clampD_bounds x
    have hx : (0:ℝ) ≤ 256 * clampD x 0 0.999 := by linarith
    refine And.intro ?_ (And.intro ?_ ?_)
    · unfold castToInt; rw [if_pos hx]
    · exact Int.le_floor.mpr (by exact_mod_cast hx)
    · have hlt : (256 : ℝ) * clampD x 0 0.999 < ((256:ℤ) : ℝ) := by push_cast; linarith
      have := Int.floor_lt.mpr hlt
      omega
  have hdiv : ∀ c : ℝ, (1 / (samplesPerPixel : ℝ)) * c = c / (samplesPerPixel : ℝ) := by
    intro c; ring
  constructor
  · simp only [writeColour, hdiv]
    rw [(key _).1, (key _).1, (key _).1]
  · intro e he
    simp only [writeColour, hdiv, List.mem_cons, List.not_mem_nil, or_false] at he
    rcases he with h | h | h <;>
      (rw [h, (key _).1]; exact And.intro (key _).2.1 (key _).2.2)

theorem writeColour_contract_witness :
    (0:ℤ) < 1 ∧ ∀ e ∈ writeColour (Vec3.mk 0 0 0) 1, 0 ≤ e ∧ e ≤ 255 :=
  And.intro (by norm_num) ((writeColour_contract (Vec3.mk 0 0 0) 1 (by norm_num)).2)

/-- C6: `Dielectric::isScattered` always returns true, always sets the
attenuation to white `(1,1,1)`, and the scattered direction comes from exactly
one of smooth reflection or Snell refraction, with reflection forced whenever
`refractionRatio * sinTheta > 1` (total internal reflection). -/
theorem dielectric_scatter_contract {μ : Type} (m_refractiveIndex u : ℝ) (inRay : Ray)
    (inRecord : HitRecord μ) :
    (Dielectric.isScattered m_refractiveIndex u inRay inRecord).1 = true ∧
    (Dielectric.isScattered m_refractiveIndex u inRay inRecord).2.1 = Vec3.mk 1 1 1 ∧
    ((Dielectric.isScattered m_refractiveIndex u inRay inRecord).2.2.direction =
        Vec3.smoothReflect inRay.direction.getUnitVector inRecord.m_normal ∨
      (Dielectric.isScattered m_refractiveIndex u inRay inRecord).2.2.direction =
        Vec3.refract inRay.direction inRecord.m_normal
          (if inRecord.m_frontFace then 1 / m_refractiveIndex else m_refractiveIndex)) ∧
    ((if inRecord.m_frontFace then 1 / m_refractiveIndex else m_refractiveIndex) *
        Real.sqrt (1 - min (inRecord.m_normal.innerProduct (-inRay.direction)) 1 *
          min (inRecord.m_normal.innerProduct (-inRay.direction)) 1) > 1 →
      (Dielectric.isScattered m_refractiveIndex u inRay inRecord).2.2.direction =
        Vec3.smoothReflect inRay.direction.getUnitVector inRecord.m_normal) := by
  simp only [Dielectric.isScattered]
  refine And.intro trivial (And.intro trivial (And.intro ?_ ?_))
  · by_cases h :
      (if inRecord.m_frontFace then 1 / m_refractiveIndex else m_refractiveIndex) *
          Real.sqrt (1 - min (inRecord.m_normal.innerProduct (-inRay.direction)) 1 *
            min (inRecord.m_normal.innerProduct (-inRay.direction)) 1) > 1 ∨
        Dielectric.calcReflection (min (inRecord.m_normal.innerProduct (-inRay.direction)) 1)
          m_refractiveIndex > u
    · exact Or.inl (by simp only [if_pos h])
    · exact Or.inr (by simp only [if_neg h])
  · intro h
    simp only [if_pos (Or.inl h)]

theorem dielectric_scatter_contract_witness :
    ((if recC6.m_frontFace then 1 / (2:ℝ) else 2) *
        Real.sqrt (1 - min (recC6.m_normal.innerProduct (-rayC6.direction)) 1 *
          min (recC6.m_normal.innerProduct (-rayC6.direction)) 1) > 1) ∧
    (Dielectric.isScattered 2 (1/2) rayC6 recC6).2.2.direction =
      Vec3.smoothReflect rayC6.direction.getUnitVector recC6.m_normal := by
  have h : (if recC6.m_frontFace then 1 / (2:ℝ) else 2) *
      Real.sqrt (1 - min (recC6.m_normal.innerProduct (-rayC6.direction)) 1 *
        min (recC6.m_normal.innerProduct (-rayC6.direction)) 1) > 1 := by
    norm_num [recC6, rayC6, Vec3.innerProduct, Vec3.neg_def, Real.sqrt_one]
  exact And.intro h ((dielectric_scatter_contract 2 (1/2) rayC6 recC6).2.2.2 h)

theorem Vec3.ext3 (v w : Vec3) (hx : v.x = w.x) (hy : v.y = w.y) (hz : v.z = w.z) :
    v = w := by
  cases v; cases w; simp_all

theorem Ray.origin_mk (o d : Vec3) : (Ray.mk o d).origin = o := rfl

theorem Ray.direction_mk (o d : Vec3) : (Ray.mk o d).direction = d := rfl

theorem writeHit_interval {μ : Type} (s : Sphere μ) (inRay : Ray) (sol : ℝ)
    (inRec : HitRecord μ) : (s.writeHit inRay sol inRec).m_interval = sol := rfl

theorem writeHit_material {μ : Type} (s : Sphere μ) (inRay : Ray) (sol : ℝ)
    (inRec : HitRecord μ) : (s.writeHit inRay sol inRec).m_materialPtr = s.m_material := rfl

theorem writeHit_frontFace {μ : Type} (s : Sphere μ) (inRay : Ray) (sol : ℝ)
    (inRec : HitRecord μ) :
    (s.writeHit inRay sol inRec).m_frontFace =
      (if inRay.direction.innerProduct ((inRay.at sol - s.m_center).scaledBy (1 / s.m_radius)) < 0
       then true else false) := rfl

theorem writeHit_normal {μ : Type} (s : Sphere μ) (inRay : Ray) (sol : ℝ)
    (inRec : HitRecord μ) :
    (s.writeHit inRay sol inRec).m_normal =
      (if (if inRay.direction.innerProduct
            ((inRay.at sol - s.m_center).scaledBy (1 / s.m_radius)) < 0
          then true else false) = true
       then (inRay.at sol - s.m_center).scaledBy (1 / s.m_radius)
       else -((inRay.at sol - s.m_center).scaledBy (1 / s.m_radius))) := rfl

theorem sphere_isHit_neg_disc {μ : Type} (s : Sphere μ) (inRay : Ray) (t_min t_max : ℝ)
    (inRec : HitRecord μ) (h0 : s.disc inRay < 0) :
    s.isHit inRay t_min t_max inRec = (false, inRec) := by
  simp only [Sphere.isHit]
  rw [if_pos h0]

theorem sphere_isHit_rootOne {μ : Type} (s : Sphere μ) (inRay : Ray) (t_min t_max : ℝ)
    (inRec : HitRecord μ) (h0 : ¬ s.disc inRay < 0)
    (h1 : ¬ (s.rootOne inRay < t_min ∨ t_max < s.rootOne inRay)) :
    s.isHit inRay t_min t_max inRec = (true, s.writeHit inRay (s.rootOne inRay) inRec) := by
  simp only [Sphere.isHit]
  rw [if_neg h0, if_neg h1]

theorem sphere_isHit_rootTwo {μ : Type} (s : Sphere μ) (inRay : Ray) (t_min t_max : ℝ)
    (inRec : HitRecord μ) (h0 : ¬ s.disc inRay < 0)
    (h1 : s.rootOne inRay < t_min ∨ t_max < s.rootOne inRay)
    (h2 : ¬ (s.rootTwo inRay < t_min ∨ t_max < s.rootTwo inRay)) :
    s.isHit inRay t_min t_max inRec = (true, s.writeHit inRay (s.rootTwo inRay) inRec) := by
  simp only [Sphere.isHit]
  rw [if_neg h0, if_pos h1, if_neg h2]

theorem sphere_isHit_none {μ : Type} (s : Sphere μ) (inRay : Ray) (t_min t_max : ℝ)
    (inRec : HitRecord μ) (h0 : ¬ s.disc inRay < 0)
    (h1 : s.rootOne inRay < t_min ∨ t_max < s.rootOne inRay)
    (h2 : s.rootTwo inRay < t_min ∨ t_max < s.rootTwo inRay) :
    s.isHit inRay t_min t_max inRec = (false, inRec) := by
  simp only [Sphere.isHit]
  rw [if_neg h0, if_pos h1, if_pos h2]

theorem rootOne_le_rootTwo {μ : Type} (s : Sphere μ) (inRay : Ray)
    (ha : 0 < inRay.direction.lengthSquared) :
    s.rootOne inRay ≤ s.rootTwo inRay := by
  unfold Sphere.rootOne Sphere.rootTwo
  exact (div_le_div_right ha).mpr (by linarith [Real.sqrt_nonneg (s.disc inRay)])

theorem sphere_hit_iff {μ : Type} (s : Sphere μ) (inRay : Ray) (t_min t_max : ℝ)
    (inRec : HitRecord μ) :
    (s.isHit inRay t_min t_max inRec).1 = true ↔
      ∃ t, s.isCandidate inRay t ∧ t_min ≤ t ∧ t ≤ t_max := by
  constructor
  · intro hflag
    by_cases h0 : s.disc inRay < 0
    · rw [sphere_isHit_neg_disc s inRay t_min t_max inRec h0] at hflag
      simp at hflag
    · by_cases h1 : s.rootOne inRay < t_min ∨ t_max < s.rootOne inRay
      · by_cases h2 : s.rootTwo inRay < t_min ∨ t_max < s.rootTwo inRay
        · rw [sphere_isHit_none s inRay t_min t_max inRec h0 h1 h2] at hflag
          simp at hflag
        · push_neg at h2
          exact ⟨s.rootTwo inRay, ⟨not_lt.mp h0, Or.inr rfl⟩, h2.1, h2.2⟩
      · push_neg at h1
        exact ⟨s.rootOne inRay, ⟨not_lt.mp h0, Or.inl rfl⟩, h1.1, h1.2⟩
  · rintro ⟨t, ⟨hd, ht⟩, htmin, htmax⟩
    have h0 : ¬ s.disc inRay < 0 := not_lt.mpr hd
    by_cases h1 : s.rootOne inRay < t_min ∨ t_max < s.rootOne inRay
    · rcases ht with rfl | rfl
      · rcases h1 with hh | hh <;> linarith
      · have h2 : ¬ (s.rootTwo inRay < t_min ∨ t_max < s.rootTwo inRay) := by
          push_neg; exact And.intro htmin htmax
        rw [sphere_isHit_rootTwo s inRay t_min t_max inRec h0 h1 h2]
    · rw [sphere_isHit_rootOne s inRay t_min t_max inRec h0 h1]

theorem sphere_hit_min {μ : Type} (s : Sphere μ) (inRay : Ray) (t_min t_max : ℝ)
    (inRec : HitRecord μ) (ha : 0 < inRay.direction.lengthSquared)
    (hflag : (s.isHit inRay t_min t_max inRec).1 = true) :
    s.isCandidate inRay ((s.isHit inRay t_min t_max inRec).2.m_interval) ∧
    t_min ≤ (s.isHit inRay t_min t_max inRec).2.m_interval ∧
    (s.isHit inRay t_min t_max inRec).2.m_interval ≤ t_max ∧
    ∀ t, s.isCandidate inRay t → t_min ≤ t → t ≤ t_max →
      (s.isHit inRay t_min t_max inRec).2.m_interval ≤ t := by
  by_cases h0 : s.disc inRay < 0
  · rw [sphere_isHit_neg_disc s inRay t_min t_max inRec h0] at hflag
    simp at hflag
  · by_cases h1 : s.rootOne inRay < t_min ∨ t_max < s.rootOne inRay
    · by_cases h2 : s.rootTwo inRay < t_min ∨ t_max < s.rootTwo inRay
      · rw [sphere_isHit_none s inRay t_min t_max inRec h0 h1 h2] at hflag
        simp at hflag
      · have heq := sphere_isHit_rootTwo s inRay t_min t_max inRec h0 h1 h2
        rw [heq]
        simp only [writeHit_interval]
        push_neg at h2
        refine ⟨⟨not_lt.mp h0, Or.inr rfl⟩, h2.1, h2.2, ?_⟩
        rintro t ⟨_, hor⟩ htmin htmax
        rcases hor with rfl | rfl
        · rcases h1 with hh | hh <;> linarith
        · exact le_rfl
    · have heq := sphere_isHit_rootOne s inRay t_min t_max inRec h0 h1
      rw [heq]
      simp only [writeHit_interval]
      push_neg at h1
      refine ⟨⟨not_lt.mp h0, Or.inl rfl⟩, h1.1, h1.2, ?_⟩
      rintro t ⟨_, hor⟩ htmin htmax
      rcases hor with rfl | rfl
      · exact le_rfl
      · exact rootOne_le_rootTwo s inRay ha

theorem rayW_a : rayW.direction.lengthSquared = 1 := by
  norm_num [rayW, Vec3.lengthSquared]

theorem sphereW_hitH : sphereW.hitH rayW = -2 := by
  norm_num [Sphere.hitH, sphereW, rayW, Vec3.sub_def, Vec3.innerProduct]

theorem sphereW_disc : sphereW.disc rayW = 1 := by
  norm_num [Sphere.disc, Sphere.hitH, Sphere.hitC, sphereW, rayW, Vec3.sub_def,
    Vec3.innerProduct, Vec3.lengthSquared]

theorem sphereW_rootOne : sphereW.rootOne rayW = 1 := by
  unfold Sphere.rootOne
  rw [sphereW_disc, Real.sqrt_one, sphereW_hitH, rayW_a]
  norm_num

theorem sphereW_rootTwo : sphereW.rootTwo rayW = 3 := by
  unfold Sphere.rootTwo
  rw [sphereW_disc, Real.sqrt_one, sphereW_hitH, rayW_a]
  norm_num

theorem sqrt_four : Real.sqrt 4 = 2 := by
  rw [show (4:ℝ) = 2 ^ 2 by norm_num, Real.sqrt_sq (by norm_num : (0:ℝ) ≤ 2)]

theorem rayW2_a : rayW2.direction.lengthSquared = 4 := by
  norm_num [rayW2, Vec3.lengthSquared]

theorem sphereW_hitH2 : sphereW.hitH rayW2 = 0 := by
  norm_num [Sphere.hitH, sphereW, rayW2, Vec3.sub_def, Vec3.innerProduct]

theorem sphereW_disc2 : sphereW.disc rayW2 = 4 := by
  norm_num [Sphere.disc, Sphere.hitH, Sphere.hitC, sphereW, rayW2, Vec3.sub_def,
    Vec3.innerProduct, Vec3.lengthSquared]

theorem sphereW_rootOne2 : sphereW.rootOne rayW2 = -(1/2) := by
  unfold Sphere.rootOne
  rw [sphereW_disc2, sqrt_four, sphereW_hitH2, rayW2_a]
  norm_num

theorem sphereW_rootTwo2 : sphereW.rootTwo rayW2 = 1/2 := by
  unfold Sphere.rootTwo
  rw [sphereW_disc2, sqrt_four, sphereW_hitH2, rayW2_a]
  norm_num

theorem sphereW_disc3 : sphereW.disc rayW3 = -3 := by
  norm_num [Sphere.disc, Sphere.hitH, Sphere.hitC, sphereW, rayW3, Vec3.sub_def,
    Vec3.innerProduct, Vec3.lengthSquared]

/-- C3 counterexample: for the unit sphere at the origin and the ray from
`(0,0,-2)` along `+z` with bounds `[0, 1]`, the smaller root equals `t_max = 1`
and `Sphere::isHit` accepts it, although it lies outside the half-open range
`[t_min, t_max)` claimed by the spec (which would predict a miss, as the larger
root 3 is also out of range). -/
theorem sphere_halfopen_counterexample :
    (sphereW.isHit rayW 0 1 recW).1 = true ∧
    (sphereW.isHit rayW 0 1 recW).2.m_interval = 1 ∧
    ¬ ((sphereW.isHit rayW 0 1 recW).2.m_interval < 1) := by
  have h0 : ¬ sphereW.disc rayW < 0 := by rw [sphereW_disc]; norm_num
  have h1 : ¬ (sphereW.rootOne rayW < 0 ∨ (1:ℝ) < sphereW.rootOne rayW) := by
    rw [sphereW_rootOne]; norm_num
  have heq := sphere_isHit_rootOne sphereW rayW 0 1 recW h0 h1
  refine ⟨by rw [heq], ?_, ?_⟩
  · rw [heq]; simp only [writeHit_interval, sphereW_rootOne]
  · rw [heq]; simp only [writeHit_interval, sphereW_rootOne]; norm_num

/-- C3 (amended): `Sphere::isHit` reports no hit when the discriminant is
negative; otherwise it selects the smaller root `(-h - sqrt(disc))/a` first
and falls back to the larger root exactly when the smaller one lies outside
the closed range `[t_min, t_max]` (the code's test `solution < t_min ||
t_max < solution` accepts the endpoints); if both roots are outside that
closed range it reports no hit, and on success the recorded `t` is the
selected root. -/
theorem sphere_root_selection {μ : Type} (s : Sphere μ) (inRay : Ray) (t_min t_max : ℝ)
    (inRec : HitRecord μ) (hminmax : t_min ≤ t_max)
    (ha : 0 < inRay.direction.lengthSquared) :
    (s.disc inRay < 0 → s.isHit inRay t_min t_max inRec = (false, inRec)) ∧
    (s.rootOne inRay ≤ s.rootTwo inRay) ∧
    (0 ≤ s.disc inRay → t_min ≤ s.rootOne inRay → s.rootOne inRay ≤ t_max →
      s.isHit inRay t_min t_max inRec = (true, s.writeHit inRay (s.rootOne inRay) inRec) ∧
      (s.isHit inRay t_min t_max inRec).2.m_interval = s.rootOne inRay) ∧
    (0 ≤ s.disc inRay → (s.rootOne inRay < t_min ∨ t_max < s.rootOne inRay) →
      t_min ≤ s.rootTwo inRay → s.rootTwo inRay ≤ t_max →
      s.isHit inRay t_min t_max inRec = (true, s.writeHit inRay (s.rootTwo inRay) inRec) ∧
      (s.isHit inRay t_min t_max inRec).2.m_interval = s.rootTwo inRay) ∧
    (0 ≤ s.disc inRay → (s.rootOne inRay < t_min ∨ t_max < s.rootOne inRay) →
      (s.rootTwo inRay < t_min ∨ t_max < s.rootTwo inRay) →
      s.isHit inRay t_min t_max inRec = (false, inRec)) := by
  refine ⟨?_, rootOne_le_rootTwo s inRay ha, ?_, ?_, ?_⟩
  · intro h0
    exact sphere_isHit_neg_disc s inRay t_min t_max inRec h0
  · intro h0 hlo hhi
    have h1 : ¬ (s.rootOne inRay < t_min ∨ t_max < s.rootOne inRay) := by
      push_neg; exact And.intro hlo hhi
    have heq := sphere_isHit_rootOne s inRay t_min t_max inRec (not_lt.mpr h0) h1
    exact ⟨heq, by rw [heq]; simp only [writeHit_interval]⟩
  · intro h0 h1 hlo hhi
    have h2 : ¬ (s.rootTwo inRay < t_min ∨ t_max < s.rootTwo inRay) := by
      push_neg; exact And.intro hlo hhi
    have heq := sphere_isHit_rootTwo s inRay t_min t_max inRec (not_lt.mpr h0) h1 h2
    exact ⟨heq, by rw [heq]; simp only [writeHit_interval]⟩
  · intro h0 h1 h2
    exact sphere_isHit_none s inRay t_min t_max inRec (not_lt.mpr h0) h1 h2

theorem sphere_root_selection_witness :
    (0:ℝ) ≤ 10 ∧ 0 < rayW.direction.lengthSquared ∧
    (sphereW.isHit rayW 0 10 recW).2.m_interval = sphereW.rootOne rayW := by
  have ha : 0 < rayW.direction.lengthSquared := by rw [rayW_a]; norm_num
  refine ⟨by norm_num, ha, ?_⟩
  exact ((sphere_root_selection sphereW rayW 0 10 recW (by norm_num) ha).2.2.1
    (by rw [sphereW_disc]; norm_num) (by rw [sphereW_rootOne]; norm_num)
    (by rw [sphereW_rootOne]; norm_num)).2

/-- C9 counterexample: for the unit sphere at the origin and a ray from the
center with the non-unit direction `(0,0,2)`, the accepted root is `1/2 =
radius / |direction|`, not the radius `1` claimed by the spec. -/
theorem sphere_center_ray_counterexample :
    (sphereW.isHit rayW2 0 10 recW).1 = true ∧
    (sphereW.isHit rayW2 0 10 recW).2.m_interval = 1/2 ∧
    (1/2 : ℝ) ≠ sphereW.m_radius := by
  have h0 : ¬ sphereW.disc rayW2 < 0 := by rw [sphereW_disc2]; norm_num
  have h1 : sphereW.rootOne rayW2 < 0 ∨ (10:ℝ) < sphereW.rootOne rayW2 :=
    Or.inl (by rw [sphereW_rootOne2]; norm_num)
  have h2 : ¬ (sphereW.rootTwo rayW2 < 0 ∨ (10:ℝ) < sphereW.rootTwo rayW2) := by
    rw [sphereW_rootTwo2]; norm_num
  have heq := sphere_isHit_rootTwo sphereW rayW2 0 10 recW h0 h1 h2
  refine ⟨by rw [heq], ?_, by norm_num [sphereW]⟩
  rw [heq]; simp only [writeHit_interval, sphereW_rootTwo2]

/-- C9 (amended): for a sphere of radius `r > 0` and a ray whose origin is the
center with a unit-length direction `d`, `Sphere::isHit` over `[0, t_max]`
with `t_max > r` rejects the negative smaller root `-r`, accepts exactly the
larger root `t = r`, and records a back-face hit whose normal is `-d`,
opposite the ray direction. -/
theorem sphere_center_ray_hit {μ : Type} (s : Sphere μ) (d : Vec3) (t_max : ℝ)
    (inRec : HitRecord μ) (hr : 0 < s.m_radius) (hd : d.lengthSquared = 1)
    (ht : s.m_radius < t_max) :
    (s.isHit (Ray.mk s.m_center d) 0 t_max inRec).1 = true ∧
    (s.isHit (Ray.mk s.m_center d) 0 t_max inRec).2.m_interval = s.m_radius ∧
    s.rootOne (Ray.mk s.m_center d) < 0 ∧
    (s.isHit (Ray.mk s.m_center d) 0 t_max inRec).2.m_frontFace = false ∧
    (s.isHit (Ray.mk s.m_center d) 0 t_max inRec).2.m_normal = -d := by
  have hzero : (Ray.mk s.m_center d).origin - s.m_center = Vec3.mk 0 0 0 := by
    rw [Ray.origin_mk, Vec3.sub_def]; simp
  have hH : s.hitH (Ray.mk s.m_center d) = 0 := by
    unfold Sphere.hitH
    rw [hzero]
    simp [Vec3.innerProduct]
  have hC : s.hitC (Ray.mk s.m_center d) = -(s.m_radius * s.m_radius) := by
    unfold Sphere.hitC
    rw [hzero]
    simp [Vec3.lengthSquared]
  have hdisc : s.disc (Ray.mk s.m_center d) = s.m_radius * s.m_radius := by
    unfold Sphere.disc
    rw [hH, hC, Ray.direction_mk, hd]
    ring
  have hsqrt : Real.sqrt (s.m_radius * s.m_radius) = s.m_radius := by
    rw [show s.m_radius * s.m_radius = s.m_radius ^ 2 by ring, Real.sqrt_sq hr.le]
  have hr1 : s.rootOne (Ray.mk s.m_center d) = -s.m_radius := by
    unfold Sphere.rootOne
    rw [hH, hdisc, hsqrt, Ray.direction_mk, hd]
    norm_num
  have hr2 : s.rootTwo (Ray.mk s.m_center d) = s.m_radius := by
    unfold Sphere.rootTwo
    rw [hH, hdisc, hsqrt, Ray.direction_mk, hd]
    norm_num
  have h0 : ¬ s.disc (Ray.mk s.m_center d) < 0 := by
    rw [hdisc]; exact not_lt.mpr (mul_self_nonneg _)
  have h1 : s.rootOne (Ray.mk s.m_center d) < 0 ∨ t_max < s.rootOne (Ray.mk s.m_center d) :=
    Or.inl (by rw [hr1]; linarith)
  have h2 : ¬ (s.rootTwo (Ray.mk s.m_center d) < 0 ∨ t_max < s.rootTwo (Ray.mk s.m_center d)) := by
    push_neg
    rw [hr2]
    exact And.intro hr.le ht.le
  have heq := sphere_isHit_rootTwo s (Ray.mk s.m_center d) 0 t_max inRec h0 h1 h2
  have houtward :
      ((Ray.mk s.m_center d).at (s.rootTwo (Ray.mk s.m_center d)) - s.m_center).scaledBy
        (1 / s.m_radius) = d := by
    rw [hr2]
    unfold Ray.at
    rw [Ray.origin_mk, Ray.direction_mk]
    apply Vec3.ext3 <;>
      (simp only [Vec3.scaledBy, Vec3.add_def, Vec3.sub_def]; field_simp)
  refine ⟨by rw [heq], ?_, by rw [hr1]; linarith, ?_, ?_⟩
  · rw [heq]; simp only [writeHit_interval]; exact hr2
  · rw [heq]
    simp only [writeHit_frontFace, houtward, Ray.direction_mk, Vec3.innerProduct_self, hd]
    norm_num
  · rw [heq]
    simp only [writeHit_normal, houtward, Ray.direction_mk, Vec3.innerProduct_self, hd]
    norm_num

theorem sphere_center_ray_hit_witness :
    (0:ℝ) < sphereW.m_radius ∧ (Vec3.mk 0 0 1).lengthSquared = 1 ∧ sphereW.m_radius < 2 ∧
    (sphereW.isHit (Ray.mk sphereW.m_center (Vec3.mk 0 0 1)) 0 2 recW).2.m_interval =
      sphereW.m_radius := by
  have h1 : (0:ℝ) < sphereW.m_radius := by norm_num [sphereW]
  have h2 : (Vec3.mk 0 0 1).lengthSquared = 1 := by norm_num [Vec3.lengthSquared]
  have h3 : sphereW.m_radius < 2 := by norm_num [sphereW]
  exact ⟨h1, h2, h3, (sphere_center_ray_hit sphereW (Vec3.mk 0 0 1) 2 recW h1 h2 h3).2.1⟩

theorem hitLoop_true_flag {μ : Type} (inRay : Ray) (t_min : ℝ) :
    ∀ (objs : List (HittableT μ)) (temp : HitRecord μ) (closest : ℝ) (inRec : HitRecord μ),
    (hitLoop inRay t_min objs temp true closest inRec).1 = true := by
  intro objs
  induction objs with
  | nil => intro temp closest inRec; rfl
  | cons o rest ih =>
    intro temp closest inRec
    simp only [hitLoop]
    cases hb : (o inRay t_min closest temp).1
    · simp only [Bool.false_eq_true, if_false]
      exact ih _ _ _
    · simp only [if_true]
      exact ih _ _ _

theorem hitLoop_false_inv {μ : Type} (inRay : Ray) (t_min : ℝ) :
    ∀ (objs : List (HittableT μ)) (temp : HitRecord μ) (anyHit : Bool) (closest : ℝ)
      (inRec : HitRecord μ),
    (hitLoop inRay t_min objs temp anyHit closest inRec).1 = false →
    (hitLoop inRay t_min objs temp anyHit closest inRec).2 = inRec ∧ anyHit = false := by
  intro objs
  induction objs with
  | nil =>
    intro temp anyHit closest inRec h
    exact And.intro rfl h
  | cons o rest ih =>
    intro temp anyHit closest inRec h
    simp only [hitLoop] at h ⊢
    cases hb : (o inRay t_min closest temp).1
    · simp only [hb, Bool.false_eq_true, if_false] at h ⊢
      exact ih _ _ _ _ h
    · simp only [hb, if_true] at h ⊢
      have hflag := hitLoop_true_flag inRay t_min rest (o inRay t_min closest temp).2
        ((o inRay t_min closest temp).2.m_interval) (o inRay t_min closest temp).2
      rw [h] at hflag
      simp at hflag

/-- C10: when `Sphere::isHit` or `HittableList::isHit` returns false, the
caller's hit record argument is returned completely unchanged; its fields are
written only on a confirmed in-range hit. -/
theorem isHit_false_leaves_record {μ : Type} [Inhabited μ] (s : Sphere μ)
    (objs : List (HittableT μ)) (inRay : Ray) (t_min t_max : ℝ) (inRec : HitRecord μ) :
    ((s.isHit inRay t_min t_max inRec).1 = false →
      (s.isHit inRay t_min t_max inRec).2 = inRec) ∧
    ((HittableList.isHit objs inRay t_min t_max inRec).1 = false →
      (HittableList.isHit objs inRay t_min t_max inRec).2 = inRec) := by
  constructor
  · intro hflag
    by_cases h0 : s.disc inRay < 0
    · rw [sphere_isHit_neg_disc s inRay t_min t_max inRec h0]
    · by_cases h1 : s.rootOne inRay < t_min ∨ t_max < s.rootOne inRay
      · by_cases h2 : s.rootTwo inRay < t_min ∨ t_max < s.rootTwo inRay
        · rw [sphere_isHit_none s inRay t_min t_max inRec h0 h1 h2]
        · rw [sphere_isHit_rootTwo s inRay t_min t_max inRec h0 h1 h2] at hflag
          simp at hflag
      · rw [sphere_isHit_rootOne s inRay t_min t_max inRec h0 h1] at hflag
        simp at hflag
  · intro hflag
    unfold HittableList.isHit at hflag ⊢
    exact (hitLoop_false_inv inRay t_min objs default false t_max inRec hflag).1

theorem isHit_false_leaves_record_witness :
    (sphereW.isHit rayW3 0 10 recW).1 = false ∧
    (sphereW.isHit rayW3 0 10 recW).2 = recW ∧
    (HittableList.isHit ([] : List (HittableT ℕ)) rayW3 0 10 recW).2 = recW := by
  have hd : sphereW.disc rayW3 < 0 := by rw [sphereW_disc3]; norm_num
  have heq := sphere_isHit_neg_disc sphereW rayW3 0 10 recW hd
  have hlist : (HittableList.isHit ([] : List (HittableT ℕ)) rayW3 0 10 recW).1 = false := rfl
  exact ⟨by rw [heq],
    (isHit_false_leaves_record sphereW [] rayW3 0 10 recW).1 (by rw [heq]),
    (isHit_false_leaves_record sphereW ([] : List (HittableT ℕ)) rayW3 0 10 recW).2 hlist⟩

theorem hitLoop_spheres_spec {μ : Type} (inRay : Ray) (t_min : ℝ)
    (ha : 0 < inRay.direction.lengthSquared) :
    ∀ (ss : List (Sphere μ)) (temp : HitRecord μ) (anyHit : Bool) (closest : ℝ)
      (inRec : HitRecord μ),
    (anyHit = true → inRec.m_interval = closest) →
    (((hitLoop inRay t_min (ss.map fun s => s.isHit) temp anyHit closest inRec).1 = true ↔
        (anyHit = true ∨ ∃ s ∈ ss, ∃ t, s.isCandidate inRay t ∧ t_min ≤ t ∧ t ≤ closest)) ∧
      ((hitLoop inRay t_min (ss.map fun s => s.isHit) temp anyHit closest inRec).1 = true →
        (hitLoop inRay t_min (ss.map fun s => s.isHit) temp anyHit closest
            inRec).2.m_interval ≤ closest ∧
        ((anyHit = true ∧
            (hitLoop inRay t_min (ss.map fun s => s.isHit) temp anyHit closest inRec).2 = inRec) ∨
          (∃ s ∈ ss, s.isCandidate inRay
              ((hitLoop inRay t_min (ss.map fun s => s.isHit) temp anyHit closest
                  inRec).2.m_interval) ∧
            t_min ≤ (hitLoop inRay t_min (ss.map fun s => s.isHit) temp anyHit closest
                inRec).2.m_interval)) ∧
        (∀ s ∈ ss, ∀ t, s.isCandidate inRay t → t_min ≤ t → t ≤ closest →
          (hitLoop inRay t_min (ss.map fun s => s.isHit) temp anyHit closest
              inRec).2.m_interval ≤ t))) := by
  intro ss
  induction ss with
  | nil =>
    intro temp anyHit closest inRec hinv
    refine ⟨by simp [hitLoop], ?_⟩
    intro hflag
    have hAny : anyHit = true := by simpa [hitLoop] using hflag
    subst hAny
    refine ⟨?_, Or.inl ⟨rfl, rfl⟩, ?_⟩
    · simp only [List.map_nil, hitLoop]
      exact le_of_eq (hinv rfl)
    · intro s hs
      exact absurd hs (List.not_mem_nil s)
  | cons s rest ih =>
    intro temp anyHit closest inRec hinv
    simp only [List.map_cons, hitLoop]
    cases hb : (s.isHit inRay t_min closest temp).1
    · rw [if_neg Bool.false_ne_true]
      have hnone : ∀ t, s.isCandidate inRay t → t_min ≤ t → t ≤ closest → False := by
        intro t hc h1 h2
        have hmem := (sphere_hit_iff s inRay t_min closest temp).mpr ⟨t, hc, h1, h2⟩
        rw [hb] at hmem
        exact absurd hmem (by simp)
      obtain ⟨ihIff, ihTrue⟩ :=
        ih ((s.isHit inRay t_min closest temp).2) anyHit closest inRec hinv
      constructor
      · rw [ihIff]
        constructor
        · rintro (h | ⟨s', hs', t, hct, h1, h2⟩)
          · exact Or.inl h
          · exact Or.inr ⟨s', List.mem_cons_of_mem s hs', t, hct, h1, h2⟩
        · rintro (h | ⟨s', hs', t, hct, h1, h2⟩)
          · exact Or.inl h
          · rcases List.mem_cons.mp hs' with rfl | hmem
            · exact ((hnone t hct h1 h2).elim)
            · exact Or.inr ⟨s', hmem, t, hct, h1, h2⟩
      · intro hflag
        obtain ⟨ihBound, ihProv, ihMin⟩ := ihTrue hflag
        refine ⟨ihBound, ?_, ?_⟩
        · rcases ihProv with h | ⟨s', hs', hcand', hmin'⟩
          · exact Or.inl h
          · exact Or.inr ⟨s', List.mem_cons_of_mem s hs', hcand', hmin'⟩
        · intro s' hs' t hcandT htmin htclosest
          rcases List.mem_cons.mp hs' with rfl | hmem
          · exact ((hnone t hcandT htmin htclosest).elim)
          · exact ihMin s' hmem t hcandT htmin htclosest
    · rw [if_pos rfl]
      obtain ⟨hcand, hmin1, hmax1, hminimal⟩ :=
        sphere_hit_min s inRay t_min closest temp ha hb
      obtain ⟨ihIff, ihTrue⟩ :=
        ih ((s.isHit inRay t_min closest temp).2) true
          ((s.isHit inRay t_min closest temp).2.m_interval)
          ((s.isHit inRay t_min closest temp).2) (fun _ => rfl)
      have hflag := ihIff.mpr (Or.inl rfl)
      constructor
      · exact iff_of_true hflag
          (Or.inr ⟨s, List.mem_cons_self s rest,
            (s.isHit inRay t_min closest temp).2.m_interval, hcand, hmin1, hmax1⟩)
      · intro _
        obtain ⟨ihBound, ihProv, ihMin⟩ := ihTrue hflag
        refine ⟨le_trans ihBound hmax1, ?_, ?_⟩
        · rcases ihProv with ⟨_, hEq⟩ | ⟨s', hs', hcand', hmin'⟩
          · refine Or.inr ⟨s, List.mem_cons_self s rest, ?_, ?_⟩
            · rw [hEq]; exact hcand
            · rw [hEq]; exact hmin1
          · exact Or.inr ⟨s', List.mem_cons_of_mem s hs', hcand', hmin'⟩
        · intro s' hs' t hcandT htmin htclosest
          rcases List.mem_cons.mp hs' with rfl | hmem
          · exact le_trans ihBound (hminimal t hcandT htmin htclosest)
          · by_cases hcase : t ≤ (s.isHit inRay t_min closest temp).2.m_interval
            · exact ihMin s' hmem t hcandT htmin hcase
            · exact le_trans ihBound (le_of_lt (not_le.mp hcase))

/-- C2 (amended): over a finite list of spheres, `HittableList::isHit` reports
a hit exactly when some member sphere has a quadratic solution in the closed
range `[t_min, t_max]`, and the returned record's `t` is minimal among all
member solutions in that range; the scan shrinks the upper bound to each
confirmed hit's `t`, and a later candidate is accepted when its `t` is at most
(not strictly below) the shrunken bound, so an equally close later hit
overwrites the earlier one; if no member reports a hit it returns none. -/
theorem hittableList_nearest_hit {μ : Type} [Inhabited μ] (ss : List (Sphere μ))
    (inRay : Ray) (t_min t_max : ℝ) (inRec : HitRecord μ) (hminmax : t_min ≤ t_max)
    (ha : 0 < inRay.direction.lengthSquared) :
    ((HittableList.isHit (ss.map fun s => s.isHit) inRay t_min t_max inRec).1 = true ↔
      ∃ s ∈ ss, ∃ t, s.isCandidate inRay t ∧ t_min ≤ t ∧ t ≤ t_max) ∧
    ((HittableList.isHit (ss.map fun s => s.isHit) inRay t_min t_max inRec).1 = true →
      (∃ s ∈ ss, s.isCandidate inRay
          ((HittableList.isHit (ss.map fun s => s.isHit) inRay t_min t_max
              inRec).2.m_interval)) ∧
      t_min ≤ (HittableList.isHit (ss.map fun s => s.isHit) inRay t_min t_max
          inRec).2.m_interval ∧
      (HittableList.isHit (ss.map fun s => s.isHit) inRay t_min t_max
          inRec).2.m_interval ≤ t_max ∧
      (∀ s ∈ ss, ∀ t, s.isCandidate inRay t → t_min ≤ t → t ≤ t_max →
        (HittableList.isHit (ss.map fun s => s.isHit) inRay t_min t_max
            inRec).2.m_interval ≤ t)) := by
  obtain ⟨hIff, hTrue⟩ :=
    hitLoop_spheres_spec inRay t_min ha ss default false t_max inRec (by simp)
  unfold HittableList.isHit
  constructor
  · rw [hIff]
    simp
  · intro hflag
    obtain ⟨hBound, hProv, hMin⟩ := hTrue hflag
    rcases hProv with ⟨hFalse, _⟩ | ⟨s', hs', hcand', hmin'⟩
    · exact absurd hFalse (by simp)
    · exact ⟨⟨s', hs', hcand'⟩, hmin', hBound, hMin⟩

theorem hittableList_nearest_hit_witness :
    (0:ℝ) ≤ 10 ∧ 0 < rayW.direction.lengthSquared ∧
    (HittableList.isHit ([sphereW].map fun s => s.isHit) rayW 0 10 recW).1 = true := by
  have ha : 0 < rayW.direction.lengthSquared := by rw [rayW_a]; norm_num
  refine ⟨by norm_num, ha, ?_⟩
  apply (hittableList_nearest_hit [sphereW] rayW 0 10 recW (by norm_num) ha).1.mpr
  refine ⟨sphereW, by simp, 1, ⟨?_, Or.inl sphereW_rootOne.symm⟩, by norm_num, by norm_num⟩
  rw [sphereW_disc]; norm_num

theorem sphereW2_hitH : sphereW2.hitH rayW = -2 := by
  norm_num [Sphere.hitH, sphereW2, rayW, Vec3.sub_def, Vec3.innerProduct]

theorem sphereW2_disc : sphereW2.disc rayW = 1 := by
  norm_num [Sphere.disc, Sphere.hitH, Sphere.hitC, sphereW2, rayW, Vec3.sub_def,
    Vec3.innerProduct, Vec3.lengthSquared]

theorem sphereW2_rootOne : sphereW2.rootOne rayW = 1 := by
  unfold Sphere.rootOne
  rw [sphereW2_disc, Real.sqrt_one, sphereW2_hitH, rayW_a]
  norm_num

/-- C2 counterexample: two coincident unit spheres with materials 0 and 1.
The first confirms a hit at `t = 1`, shrinking the bound to 1; the second is
then queried with upper bound 1 and is still accepted at the equal (not
strictly closer) `t = 1`, overwriting the record — the final record carries
the second sphere's material 1 at the same `t = 1` as the first sphere's hit. -/
theorem hittableList_tie_counterexample :
    (HittableList.isHit ([sphereW, sphereW2].map fun s => s.isHit) rayW 0 10 recW).1 = true ∧
    (HittableList.isHit ([sphereW, sphereW2].map fun s => s.isHit) rayW 0 10
        recW).2.m_materialPtr = 1 ∧
    (HittableList.isHit ([sphereW, sphereW2].map fun s => s.isHit) rayW 0 10
        recW).2.m_interval = 1 ∧
    (sphereW.isHit rayW 0 10 recW).2.m_interval = 1 ∧
    (sphereW2.isHit rayW 0 1 ((sphereW.isHit rayW 0 10 recW).2)).1 = true := by
  have h0 : ¬ sphereW.disc rayW < 0 := by rw [sphereW_disc]; norm_num
  have h0' : ¬ sphereW2.disc rayW < 0 := by rw [sphereW2_disc]; norm_num
  have h1 : ¬ (sphereW.rootOne rayW < 0 ∨ (10:ℝ) < sphereW.rootOne rayW) := by
    rw [sphereW_rootOne]; norm_num
  have h1' : ¬ (sphereW2.rootOne rayW < 0 ∨ (1:ℝ) < sphereW2.rootOne rayW) := by
    rw [sphereW2_rootOne]; norm_num
  have e1 := sphere_isHit_rootOne sphereW rayW 0 10 recW h0 h1
  rw [sphereW_rootOne] at e1
  have e2 := sphere_isHit_rootOne sphereW2 rayW 0 1 (sphereW.writeHit rayW 1 recW) h0' h1'
  rw [sphereW2_rootOne] at e2
  have eL : HittableList.isHit ([sphereW, sphereW2].map fun s => s.isHit) rayW 0 10 recW =
      (true, sphereW2.writeHit rayW 1 (sphereW.writeHit rayW 1 recW)) := by
    unfold HittableList.isHit
    have hdef : (default : HitRecord ℕ) = recW := rfl
    rw [hdef]
    simp only [List.map_cons, List.map_nil, hitLoop, e1, writeHit_interval, e2,
      eq_self_iff_true, if_true]
  refine ⟨by rw [eL], ?_, ?_, ?_, ?_⟩
  · rw [eL]
    simp [writeHit_material, sphereW2]
  · rw [eL]
    simp [writeHit_interval]
  · rw [e1]
    simp [writeHit_interval]
  · rw [e1]
    simp only []
    rw [e2]

/-- C1: `calcColour` returns black when the depth budget is exhausted
(`inDepth <= 0`); when the scene reports a hit for bounds `[0.001, +inf)` and
the material's scatter fails it returns black; when the scatter succeeds it
returns the element-wise product of the attenuation with the recursive call on
the scattered ray at depth `inDepth - 1`; and on a miss it returns the linear
blend `(1-t)*white + t*(0.5,0.7,1.0)` with `t = 0.5*(unitDirection.y + 1)`. -/
theorem calcColour_integrator {μ : Type} [Inhabited μ] (S : Scene μ) (inRay : Ray)
    (inDepth : ℤ) :
    (inDepth ≤ 0 → calcColour S inRay inDepth = Vec3.mk 0 0 0) ∧
    (0 < inDepth → (S.isHit inRay 0.001 doubleInfinity default).1 = true →
      (S.scatter (S.isHit inRay 0.001 doubleInfinity default).2.m_materialPtr inRay
          (S.isHit inRay 0.001 doubleInfinity default).2).1 = false →
      calcColour S inRay inDepth = Vec3.mk 0 0 0) ∧
    (0 < inDepth → (S.isHit inRay 0.001 doubleInfinity default).1 = true →
      (S.scatter (S.isHit inRay 0.001 doubleInfinity default).2.m_materialPtr inRay
          (S.isHit inRay 0.001 doubleInfinity default).2).1 = true →
      calcColour S inRay inDepth =
        Vec3.mk
          ((S.scatter (S.isHit inRay 0.001 doubleInfinity default).2.m_materialPtr inRay
              (S.isHit inRay 0.001 doubleInfinity default).2).2.1.x *
            (calcColour S
              (S.scatter (S.isHit inRay 0.001 doubleInfinity default).2.m_materialPtr inRay
                (S.isHit inRay 0.001 doubleInfinity default).2).2.2 (inDepth - 1)).x)
          ((S.scatter (S.isHit inRay 0.001 doubleInfinity default).2.m_materialPtr inRay
              (S.isHit inRay 0.001 doubleInfinity default).2).2.1.y *
            (calcColour S
              (S.scatter (S.isHit inRay 0.001 doubleInfinity default).2.m_materialPtr inRay
                (S.isHit inRay 0.001 doubleInfinity default).2).2.2 (inDepth - 1)).y)
          ((S.scatter (S.isHit inRay 0.001 doubleInfinity default).2.m_materialPtr inRay
              (S.isHit inRay 0.001 doubleInfinity default).2).2.1.z *
            (calcColour S
              (S.scatter (S.isHit inRay 0.001 doubleInfinity default).2.m_materialPtr inRay
                (S.isHit inRay 0.001 doubleInfinity default).2).2.2 (inDepth - 1)).z)) ∧
    (0 < inDepth → (S.isHit inRay 0.001 doubleInfinity default).1 = false →
      calcColour S inRay inDepth =
        Vec3.mk
          ((1 - 0.5 * (inRay.direction.getUnitVector.y + 1)) * 1 +
            0.5 * (inRay.direction.getUnitVector.y + 1) * 0.5)
          ((1 - 0.5 * (inRay.direction.getUnitVector.y + 1)) * 1 +
            0.5 * (inRay.direction.getUnitVector.y + 1) * 0.7)
          ((1 - 0.5 * (inRay.direction.getUnitVector.y + 1)) * 1 +
            0.5 * (inRay.direction.getUnitVector.y + 1) * 1)) := by
  refine ⟨?_, ?_, ?_, ?_⟩
  · intro h
    rw [calcColour, dif_pos h]
  · intro hdep hhit hsc
    rw [calcColour, dif_neg (not_le.mpr hdep)]
    simp only [hhit, if_true, hsc, Bool.false_eq_true, if_false]
  · intro hdep hhit hsc
    rw [calcColour, dif_neg (not_le.mpr hdep)]
    simp only [hhit, if_true, hsc]
    apply Vec3.ext3 <;> (simp only [Vec3.scaledByVector]; ring)
  · intro hdep hmiss
    rw [calcColour, dif_neg (not_le.mpr hdep)]
    simp only [hmiss, Bool.false_eq_true, if_false]
    apply Vec3.ext3 <;> (simp only [Vec3.scaledBy, Vec3.add_def]; ring)

theorem calcColour_integrator_witness :
    calcColour missScene rayC6 0 = Vec3.mk 0 0 0 ∧
    calcColour absorbScene rayC6 5 = Vec3.mk 0 0 0 ∧
    calcColour bounceScene rayC6 5 =
      Vec3.mk (0.5 * (calcColour bounceScene (Ray.mk (Vec3.mk 0 0 0) (Vec3.mk 0 1 0)) 4).x)
        (0.25 * (calcColour bounceScene (Ray.mk (Vec3.mk 0 0 0) (Vec3.mk 0 1 0)) 4).y)
        (1 * (calcColour bounceScene (Ray.mk (Vec3.mk 0 0 0) (Vec3.mk 0 1 0)) 4).z) ∧
    calcColour missScene rayC6 5 =
      Vec3.mk
        ((1 - 0.5 * (rayC6.direction.getUnitVector.y + 1)) * 1 +
          0.5 * (rayC6.direction.getUnitVector.y + 1) * 0.5)
        ((1 - 0.5 * (rayC6.direction.getUnitVector.y + 1)) * 1 +
          0.5 * (rayC6.direction.getUnitVector.y + 1) * 0.7)
        ((1 - 0.5 * (rayC6.direction.getUnitVector.y + 1)) * 1 +
          0.5 * (rayC6.direction.getUnitVector.y + 1) * 1) := by
  refine ⟨?_, ?_, ?_, ?_⟩
  · exact (calcColour_integrator missScene rayC6 0).1 le_rfl
  · exact (calcColour_integrator absorbScene rayC6 5).2.1 (by norm_num) rfl rfl
  · exact (calcColour_integrator bounceScene rayC6 5).2.2.1 (by norm_num) rfl rfl
  · exact (calcColour_integrator missScene rayC6 5).2.2.2 (by norm_num) rfl

end PathTracer
